import Mathlib

/-!
Verification of the secret-santa assignment core.

The program under study builds gift-exchange assignments: `createAssignmentCycle`
(src/lib/assignment.ts) shuffles the participant list with a Fisher-Yates pass and
pairs each shuffled participant with its successor, wrapping the last around to the
first; `generateAssignments` (src/lib/exchange.ts) is the coordinator that checks
authorization, a 3-participant floor and one-shot generation before persisting the
pairs.

The embedding below is shallow: the JavaScript array is a `List`, the call to
`Math.random` at loop index `i` is injected as `rand i % (i + 1)` for an arbitrary
`rand : Nat → Nat` (so every possible sequence of random draws is covered by
quantifying over `rand`), and the database touched by the coordinator is an explicit
record threaded through the call.
-/

/-- Participant record; the fields mirror the `User` rows built in the property
tests (id, email, password_hash, name and the two timestamps).  The assignment
algorithm reads only `id`. -/
structure User where
  id : String
  email : String
  password_hash : String
  name : String
  created_at : Int
  updated_at : Int
deriving DecidableEq

/-- Output element of `createAssignmentCycle`: `{ giverId, receiverId }`. -/
structure AssignmentPair where
  giverId : String
  receiverId : String
deriving DecidableEq

/-- Default used only to totalize list indexing at positions that are always in
bounds. -/
def dfltUser : User := ⟨"", "", "", "", 0, 0⟩

/-- Default assignment pair, used only to totalize list indexing. -/
def dfltPair : AssignmentPair := ⟨"", ""⟩

/-- The destructuring swap `[a[i], a[j]] = [a[j], a[i]]` on a list: when both
indices are in bounds the two entries are exchanged, otherwise the list is
unchanged (the loop only ever calls it in bounds). -/
def listSwap (l : List α) (i j : Nat) : List α :=
  if h : i < l.length ∧ j < l.length then
    (l.set i (l.get ⟨j, h.2⟩)).set j (l.get ⟨i, h.1⟩)
  else l

/-- The Fisher-Yates loop of `shuffleArray`: `for (let i = length-1; i > 0; i--)`
swap index `i` with `j = Math.floor(Math.random() * (i + 1))`.  The random draw at
index `i` is injected as `rand i % (i + 1)`, which like the source ranges over
`0 .. i`.  The second argument is the current value of the loop counter `i`. -/
def fisherYatesLoop (rand : Nat → Nat) : List α → Nat → List α
  | shuffled, 0 => shuffled
  | shuffled, i + 1 =>
      fisherYatesLoop rand (listSwap shuffled (i + 1) (rand (i + 1) % (i + 2))) i

/-- `shuffleArray` from src/lib/assignment.ts: copy the array, then run the
Fisher-Yates loop starting at the last index. -/
def shuffleArray (rand : Nat → Nat) (array : List α) : List α :=
  fisherYatesLoop rand array (array.length - 1)

/-- The pair-building loop of `createAssignmentCycle`: for each index `i` of the
shuffled list, push `{ giverId: shuffled[i].id, receiverId: shuffled[(i + 1) %
shuffled.length].id }`. -/
def cyclePairs (shuffled : List User) : List AssignmentPair :=
  (List.range shuffled.length).map fun i =>
    { giverId := (shuffled.getD i dfltUser).id
      receiverId := (shuffled.getD ((i + 1) % shuffled.length) dfltUser).id }

/-- `createAssignmentCycle` from src/lib/assignment.ts: throw when fewer than 2
participants, otherwise shuffle and pair each shuffled participant with its
successor, the last wrapping to the first (`(i + 1) % length`).  The thrown
`Error` is modelled as `Except.error` of its message. -/
def createAssignmentCycle (rand : Nat → Nat) (participants : List User) :
    Except String (List AssignmentPair) :=
  if participants.length < 2 then
    Except.error "At least 2 participants are required to create assignments"
  else
    Except.ok (cyclePairs (shuffleArray rand participants))

/-- Follow the giver→receiver relation of an assignment list: the receiver of the
first pair whose giver is `g` (and `g` itself when no pair has giver `g`). -/
def receiverOf (assignments : List AssignmentPair) (g : String) : String :=
  match assignments.find? (fun p => p.giverId == g) with
  | some p => p.receiverId
  | none => g

/-- The Fisher-Yates loop again, this time threading the caller's array alongside
the local `shuffled` copy, so that mutation of the caller's array would be
observable: the state is `(array, shuffled)` and each iteration performs the
source's writes, which target only `shuffled`. -/
def shuffleLoopSt (rand : Nat → Nat) :
    List User × List User → Nat → List User × List User
  | st, 0 => st
  | st, i + 1 =>
      shuffleLoopSt rand (st.1, listSwap st.2 (i + 1) (rand (i + 1) % (i + 2))) i

/-- `shuffleArray` with the caller's array threaded through: `const shuffled =
[...array]` makes `shuffled` a fresh copy with the same contents as `array`, and
the loop then runs on the pair of the two arrays.  Returns `(array after the
call, shuffled)`. -/
def shuffleArraySt (rand : Nat → Nat) (array : List User) : List User × List User :=
  shuffleLoopSt rand (array, array) (array.length - 1)

/-- `createAssignmentCycle` with the caller's `participants` array threaded
through every operation the source applies to it; the second component is the
contents of the caller's array when the call returns. -/
def createAssignmentCycleSt (rand : Nat → Nat) (participants : List User) :
    Except String (List AssignmentPair) × List User :=
  if participants.length < 2 then
    (Except.error "At least 2 participants are required to create assignments",
      participants)
  else
    let st := shuffleArraySt rand participants
    (Except.ok (cyclePairs st.2), st.1)

/-- A concrete user, used to exhibit the behaviour on a duplicated input. -/
def dupUser : User := ⟨"alice", "alice@example.com", "hash", "Alice", 0, 0⟩

/-- A concrete three-participant input used to evaluate the theorems. -/
def wUsers : List User :=
  [⟨"a", "", "", "", 0, 0⟩, ⟨"b", "", "", "", 0, 0⟩, ⟨"c", "", "", "", 0, 0⟩]

/-- A concrete randomness source (always draws 0). -/
def wRand : Nat → Nat := fun _ => 0

/-- The output of `createAssignmentCycle wRand wUsers`. -/
def wOut : List AssignmentPair := [⟨"b", "c"⟩, ⟨"c", "a"⟩, ⟨"a", "b"⟩]

/-- A concrete user for the coordinator databases. -/
def wUserOne : User := ⟨"u1", "", "", "", 0, 0⟩

/-- A second concrete user for the coordinator databases. -/
def wUserTwo : User := ⟨"u2", "", "", "", 0, 0⟩

/-- An `Exchange` row as read by `generateAssignments`: its id, its organizer and
the `assignments_generated` flag. -/
structure ExchangeRec where
  id : String
  organizer_id : String
  assignments_generated : Bool
deriving DecidableEq

/-- An `Assignment` row as created by `generateAssignments`. -/
structure AssignmentRec where
  exchange_id : String
  giver_id : String
  receiver_id : String
deriving DecidableEq

/-- The slice of the database that `generateAssignments` touches: exchange rows,
participant rows (exchange id paired with the joined user) and assignment rows. -/
structure DB where
  exchanges : List ExchangeRec
  participants : List (String × User)
  assignments : List AssignmentRec
deriving DecidableEq

/-- `prisma.exchange.findUnique({ where: { id } })`. -/
def findUniqueExchange (db : DB) (exchangeId : String) : Option ExchangeRec :=
  db.exchanges.find? (fun e => e.id == exchangeId)

/-- `getParticipants` from src/lib/exchange.ts: the users of the participant rows
of the exchange. -/
def getParticipants (db : DB) (exchangeId : String) : List User :=
  (db.participants.filter (fun p => p.1 == exchangeId)).map (fun p => p.2)

/-- The `tx.exchange.update` setting `assignments_generated: true` on the row
with the given id. -/
def updateExchangeGenerated (exchanges : List ExchangeRec) (exchangeId : String) :
    List ExchangeRec :=
  exchanges.map (fun e =>
    if e.id == exchangeId then { e with assignments_generated := true } else e)

/-- `generateAssignments` from src/lib/exchange.ts, with the database threaded
explicitly: look up the exchange, check the caller is the organizer, check the
one-shot flag, load the participants, enforce the 3-participant floor, run
`createAssignmentCycle`, then in one transaction insert the assignment rows and
set the flag.  Returns the result (created rows, or the thrown error's message)
together with the database state after the call; every error path leaves the
database unchanged. -/
def generateAssignments (rand : Nat → Nat) (db : DB)
    (exchangeId organizerId : String) :
    Except String (List AssignmentRec) × DB :=
  match findUniqueExchange db exchangeId with
  | none => (Except.error "Exchange not found", db)
  | some exchange =>
    if exchange.organizer_id ≠ organizerId then
      (Except.error "Only the organizer can generate assignments", db)
    else if exchange.assignments_generated then
      (Except.error "Assignments have already been generated for this exchange", db)
    else
      let participants := getParticipants db exchangeId
      if participants.length < 3 then
        (Except.error "At least 3 participants are required to generate assignments",
          db)
      else
        match createAssignmentCycle rand participants with
        | Except.error e => (Except.error e, db)
        | Except.ok pairs =>
          let created := pairs.map (fun p =>
            { exchange_id := exchangeId
              giver_id := p.giverId
              receiver_id := p.receiverId : AssignmentRec })
          (Except.ok created,
            { db with
                assignments := db.assignments ++ created
                exchanges := updateExchangeGenerated db.exchanges exchangeId })

/-- A concrete database whose single exchange has two participants and no
generated assignments yet. -/
def twoUserDB : DB :=
  ⟨[⟨"e1", "org", false⟩], [("e1", wUserOne), ("e1", wUserTwo)], []⟩

/-- A concrete database whose single exchange already has its assignments
generated. -/
def generatedDB : DB :=
  ⟨[⟨"e1", "org", true⟩], [("e1", wUserOne), ("e1", wUserTwo)], []⟩

/-! ### The shuffle permutes its input -/

/-- Moving the entry at position `m` to the front while writing `x` at position
`m` permutes consing `x` at the front. -/
theorem get_cons_set_perm (x : α) :
    ∀ (t : List α) (m : Nat) (hm : m < t.length),
      ((t.get ⟨m, hm⟩) :: t.set m x).Perm (x :: t) := by
  intro t
  induction t with
  | nil => intro m hm; simp at hm
  | cons a s ih =>
    intro m hm
    cases m with
    | zero => exact List.Perm.swap x a s
    | succ k =>
      have hk : k < s.length := Nat.lt_of_succ_lt_succ hm
      exact (List.Perm.swap a (s.get ⟨k, hk⟩) (s.set k x)).trans
        ((List.Perm.cons a (ih k hk)).trans (List.Perm.swap x a s))

/-- Exchanging the entries at two positions permutes the list. -/
theorem set_set_get_perm :
    ∀ (l : List α) (i j : Nat) (hi : i < l.length) (hj : j < l.length),
      ((l.set i (l.get ⟨j, hj⟩)).set j (l.get ⟨i, hi⟩)).Perm l := by
  intro l
  induction l with
  | nil => intro i j hi hj; simp at hi
  | cons x t ih =>
    intro i j hi hj
    cases i with
    | zero =>
      cases j with
      | zero => exact List.Perm.refl (x :: t)
      | succ m => exact get_cons_set_perm x t m (Nat.lt_of_succ_lt_succ hj)
    | succ n =>
      cases j with
      | zero => exact get_cons_set_perm x t n (Nat.lt_of_succ_lt_succ hi)
      | succ m =>
        exact List.Perm.cons x
          (ih n m (Nat.lt_of_succ_lt_succ hi) (Nat.lt_of_succ_lt_succ hj))

/-- One destructuring swap permutes the list. -/
theorem listSwap_perm (l : List α) (i j : Nat) : (listSwap l i j).Perm l := by
  unfold listSwap
  split
  · exact set_set_get_perm l _ _ _ _
  · exact List.Perm.refl l

/-- The whole Fisher-Yates loop permutes the list. -/
theorem fisherYatesLoop_perm (rand : Nat → Nat) :
    ∀ (i : Nat) (l : List α), (fisherYatesLoop rand l i).Perm l := by
  intro i
  induction i with
  | zero => intro l; exact List.Perm.refl l
  | succ i ih =>
    intro l
    rw [fisherYatesLoop]
    exact (ih _).trans (listSwap_perm l (i + 1) (rand (i + 1) % (i + 2)))

/-- `shuffleArray` returns a permutation of its input. -/
theorem shuffleArray_perm (rand : Nat → Nat) (l : List α) :
    (shuffleArray rand l).Perm l :=
  fisherYatesLoop_perm rand (l.length - 1) l

/-- `shuffleArray` preserves the length. -/
theorem shuffleArray_length (rand : Nat → Nat) (l : List α) :
    (shuffleArray rand l).length = l.length :=
  (shuffleArray_perm rand l).length_eq

/-! ### Shape of the pair list -/

/-- `cyclePairs` emits one pair per participant. -/
theorem cyclePairs_length (l : List User) : (cyclePairs l).length = l.length := by
  simp [cyclePairs]

/-- The pair at index `i` names the shuffled participant at `i` as giver and its
cyclic successor as receiver. -/
theorem cyclePairs_getElem (l : List User) (i : Nat)
    (hi : i < (cyclePairs l).length) :
    (cyclePairs l)[i] =
      { giverId := (l.getD i dfltUser).id
        receiverId := (l.getD ((i + 1) % l.length) dfltUser).id } := by
  simp [cyclePairs]

/-- The givers of `cyclePairs l`, in order, are exactly the ids of `l`. -/
theorem cyclePairs_map_giver (l : List User) :
    (cyclePairs l).map (fun p => p.giverId) = l.map User.id := by
  apply List.ext_getElem
  · simp [cyclePairs_length]
  · intro n h1 h2
    have hn : n < l.length := by simpa using h2
    simp [cyclePairs_getElem, List.getD_eq_getElem l dfltUser hn,
      List.getElem?_eq_getElem hn]

/-- The receivers of `cyclePairs l`, in order, are the ids of `l` rotated by
one. -/
theorem cyclePairs_map_receiver (l : List User) :
    (cyclePairs l).map (fun p => p.receiverId) = (l.rotate 1).map User.id := by
  apply List.ext_getElem
  · simp [cyclePairs_length]
  · intro n h1 h2
    have hn : n < l.length := by simpa [cyclePairs_length] using h1
    have h0 : 0 < l.length := by omega
    have hmod : (n + 1) % l.length < l.length := Nat.mod_lt _ h0
    simp [cyclePairs_getElem, List.getElem_rotate,
      List.getD_eq_getElem l dfltUser hmod, List.getElem?_eq_getElem hmod]

/-! ### Following the giver→receiver relation -/

/-- `find?` returns the entry at the first index where the predicate holds. -/
theorem find?_eq_of_getElem {p : α → Bool} :
    ∀ (xs : List α) (i : Nat) (h : i < xs.length),
      p (xs.get ⟨i, h⟩) = true →
      (∀ k (hk : k < i), p (xs.get ⟨k, Nat.lt_trans hk h⟩) = false) →
      xs.find? p = some (xs.get ⟨i, h⟩) := by
  intro xs
  induction xs with
  | nil => intro i h _ _; simp at h
  | cons x t ih =>
    intro i h hp hprev
    cases i with
    | zero => exact List.find?_cons_of_pos t hp
    | succ m =>
      have hx : p x = false := hprev 0 (Nat.succ_pos m)
      rw [List.find?_cons_of_neg t (by simp [hx])]
      exact ih m (Nat.lt_of_succ_lt_succ h) hp
        (fun k hk => hprev (k + 1) (Nat.succ_lt_succ hk))

/-- When the ids of `l` are distinct, following giver→receiver from the
participant at position `i` lands on the participant at position
`(i + 1) % l.length`. -/
theorem receiverOf_cyclePairs (l : List User) (hnd : (l.map User.id).Nodup)
    (i : Nat) (hi : i < l.length) :
    receiverOf (cyclePairs l) ((l.getD i dfltUser).id)
      = (l.getD ((i + 1) % l.length) dfltUser).id := by
  have hi' : i < (cyclePairs l).length := by simpa [cyclePairs_length] using hi
  have hfind : (cyclePairs l).find?
        (fun p => p.giverId == (l.getD i dfltUser).id)
      = some ((cyclePairs l).get ⟨i, hi'⟩) := by
    apply find?_eq_of_getElem
    · rw [List.get_eq_getElem, cyclePairs_getElem]
      simp
    · intro k hk
      have hk' : k < l.length := Nat.lt_trans hk hi
      have hkc : k < (cyclePairs l).length := by
        simpa [cyclePairs_length] using hk'
      rw [List.get_eq_getElem, cyclePairs_getElem l k hkc]
      have hkm : k < (l.map User.id).length := by simpa using hk'
      have him : i < (l.map User.id).length := by simpa using hi
      have hne : (l.getD k dfltUser).id ≠ (l.getD i dfltUser).id := by
        rw [List.getD_eq_getElem l dfltUser hk', List.getD_eq_getElem l dfltUser hi]
        intro hcontra
        have h1 : (l.map User.id)[k] = (l.map User.id)[i] := by
          simpa using hcontra
        have := (hnd.getElem_inj_iff).mp h1
        omega
      simpa using hne
  unfold receiverOf
  rw [hfind, List.get_eq_getElem, cyclePairs_getElem]

/-- Iterating giver→receiver `k` times from position `i` lands on position
`(i + k) % l.length`. -/
theorem iterate_receiverOf (l : List User) (hnd : (l.map User.id).Nodup)
    (i : Nat) (hi : i < l.length) :
    ∀ k, (receiverOf (cyclePairs l))^[k] ((l.getD i dfltUser).id)
      = (l.getD ((i + k) % l.length) dfltUser).id := by
  intro k
  induction k with
  | zero => simp [Nat.mod_eq_of_lt hi]
  | succ k ih =>
    rw [Function.iterate_succ_apply', ih]
    have h0 : 0 < l.length := by omega
    have hmod : (i + k) % l.length < l.length := Nat.mod_lt _ h0
    rw [receiverOf_cyclePairs l hnd ((i + k) % l.length) hmod, Nat.mod_add_mod,
      Nat.add_assoc]

/-- In a block of fewer than `n` steps, a walk advancing by one modulo `n` cannot
return to its start. -/
theorem add_mod_ne_of_lt {n i k : Nat} (hi : i < n) (hk0 : 0 < k) (hkn : k < n) :
    (i + k) % n ≠ i := by
  rcases Nat.lt_or_ge (i + k) n with h | h
  · rw [Nat.mod_eq_of_lt h]; omega
  · rw [Nat.mod_eq_sub_mod h, Nat.mod_eq_of_lt (by omega)]; omega

/-! ### Inversion of a successful call -/

/-- A successful `createAssignmentCycle` call means the input had at least 2
participants and the output is the pair list of the shuffled input. -/
theorem createAssignmentCycle_ok (rand : Nat → Nat) (ps : List User)
    (out : List AssignmentPair)
    (hout : createAssignmentCycle rand ps = Except.ok out) :
    2 ≤ ps.length ∧ out = cyclePairs (shuffleArray rand ps) := by
  unfold createAssignmentCycle at hout
  split at hout
  · exact Except.noConfusion hout
  · next h =>
    refine ⟨by omega, ?_⟩
    injection hout with h2
    exact h2.symm

/-! ### Claims -/

/-- C1: for every input of at least 2 distinct participants, the giver→receiver
relation of the output forms a single cycle over all N participants: starting
from any participant, the N iterates of the relation list every participant
exactly once (they are a permutation of the input ids), the N-th step returns to
the start, and no k with 0 < k < N returns to the start (no sub-cycle of length
< N). -/
theorem createAssignmentCycle_single_cycle (rand : Nat → Nat)
    (participants : List User) (out : List AssignmentPair)
    (hlen : 2 ≤ participants.length)
    (hnd : (participants.map User.id).Nodup)
    (hout : createAssignmentCycle rand participants = Except.ok out) :
    ∀ g ∈ participants.map User.id,
      (receiverOf out)^[participants.length] g = g ∧
      ((List.range participants.length).map
          fun k => (receiverOf out)^[k] g).Perm (participants.map User.id) ∧
      ∀ k, 0 < k → k < participants.length → (receiverOf out)^[k] g ≠ g := by
  obtain ⟨-, heq⟩ := createAssignmentCycle_ok rand participants out hout
  subst heq
  set l := shuffleArray rand participants with hl
  have hperm : l.Perm participants := shuffleArray_perm rand participants
  have hpermid : (l.map User.id).Perm (participants.map User.id) :=
    hperm.map User.id
  have hndl : (l.map User.id).Nodup := (hpermid.nodup_iff).mpr hnd
  have hlenl : l.length = participants.length := hperm.length_eq
  intro g hg
  have hgl : g ∈ l.map User.id := (hpermid.mem_iff).mpr hg
  obtain ⟨i, him, hgi⟩ := List.mem_iff_getElem.mp hgl
  have hil : i < l.length := by simpa using him
  have hgd : g = (l.getD i dfltUser).id := by
    rw [List.getD_eq_getElem l dfltUser hil, ← hgi]
    simp
  have h0 : 0 < l.length := by omega
  refine ⟨?_, ?_, ?_⟩
  · rw [hgd, iterate_receiverOf l hndl i hil participants.length, ← hlenl,
      Nat.add_mod_right, Nat.mod_eq_of_lt hil]
  · have hres : ((List.range participants.length).map
        fun k => (receiverOf (cyclePairs l))^[k] g) = (l.rotate i).map User.id := by
      apply List.ext_getElem
      · simp [hlenl]
      · intro k h1 h2
        have hkn : k < participants.length := by simpa using h1
        have hmod : (i + k) % l.length < l.length := Nat.mod_lt _ h0
        rw [List.getElem_map, List.getElem_range, hgd,
          iterate_receiverOf l hndl i hil k, List.getElem_map,
          List.getElem_rotate, List.getD_eq_getElem l dfltUser hmod,
          Nat.add_comm k i]
    rw [hres]
    exact ((List.rotate_perm l i).map User.id).trans hpermid
  · intro k hk0 hkn
    rw [hgd, iterate_receiverOf l hndl i hil k]
    intro hcontra
    have hmod : (i + k) % l.length < l.length := Nat.mod_lt _ h0
    have hne : (i + k) % l.length ≠ i := add_mod_ne_of_lt hil hk0 (by omega)
    apply hne
    rw [List.getD_eq_getElem l dfltUser hmod,
      List.getD_eq_getElem l dfltUser hil] at hcontra
    have hmodm : (i + k) % l.length < (l.map User.id).length := by simpa using hmod
    have him2 : i < (l.map User.id).length := by simpa using hil
    have h1 : (l.map User.id)[(i + k) % l.length] = (l.map User.id)[i] := by
      simpa using hcontra
    exact (hndl.getElem_inj_iff).mp h1

/-- C2: for every input of at least 2 distinct participants, the output has
exactly one pair per participant, its givers are exactly the input ids (each
exactly once) and its receivers are exactly the input ids (each exactly once),
so in particular no fabricated identifier appears. -/
theorem createAssignmentCycle_coverage (rand : Nat → Nat)
    (participants : List User) (out : List AssignmentPair)
    (_hlen : 2 ≤ participants.length)
    (_hnd : (participants.map User.id).Nodup)
    (hout : createAssignmentCycle rand participants = Except.ok out) :
    out.length = participants.length ∧
    (out.map (fun p => p.giverId)).Perm (participants.map User.id) ∧
    (out.map (fun p => p.receiverId)).Perm (participants.map User.id) := by
  obtain ⟨-, heq⟩ := createAssignmentCycle_ok rand participants out hout
  subst heq
  have hperm := shuffleArray_perm rand participants
  refine ⟨by simp [cyclePairs_length, hperm.length_eq], ?_, ?_⟩
  · rw [cyclePairs_map_giver]
    exact hperm.map User.id
  · rw [cyclePairs_map_receiver]
    exact ((List.rotate_perm _ 1).map User.id).trans (hperm.map User.id)

/-- C3: for every input of at least 2 distinct participants and every choice of
the injected randomness, every output pair has a giver different from its
receiver. -/
theorem createAssignmentCycle_no_self (rand : Nat → Nat)
    (participants : List User) (out : List AssignmentPair)
    (hlen : 2 ≤ participants.length)
    (hnd : (participants.map User.id).Nodup)
    (hout : createAssignmentCycle rand participants = Except.ok out) :
    ∀ p ∈ out, p.giverId ≠ p.receiverId := by
  obtain ⟨-, heq⟩ := createAssignmentCycle_ok rand participants out hout
  subst heq
  set l := shuffleArray rand participants with hl
  have hperm : l.Perm participants := shuffleArray_perm rand participants
  have hndl : (l.map User.id).Nodup :=
    ((hperm.map User.id).nodup_iff).mpr hnd
  have hlenl : l.length = participants.length := hperm.length_eq
  intro p hp
  obtain ⟨i, hic, hpi⟩ := List.mem_iff_getElem.mp hp
  have hil : i < l.length := by simpa [cyclePairs_length] using hic
  have h0 : 0 < l.length := by omega
  have hmod : (i + 1) % l.length < l.length := Nat.mod_lt _ h0
  rw [← hpi, cyclePairs_getElem l i hic]
  dsimp only
  rw [List.getD_eq_getElem l dfltUser hil, List.getD_eq_getElem l dfltUser hmod]
  intro hcontra
  have him : i < (l.map User.id).length := by simpa using hil
  have hmodm : (i + 1) % l.length < (l.map User.id).length := by simpa using hmod
  have h1 : (l.map User.id)[i] = (l.map User.id)[(i + 1) % l.length] := by
    simpa using hcontra
  have h2 := (hndl.getElem_inj_iff).mp h1
  exact add_mod_ne_of_lt hil Nat.one_pos (by omega) h2.symm

/-- C4: `createAssignmentCycle` throws exactly when the input has fewer than 2
entries, with the insufficient-participants message; on 2 or more entries it
returns a full list of `len(input)` pairs (never a partial list), and no other
error condition exists (every error is the insufficient-participants one). -/
theorem createAssignmentCycle_insufficient (rand : Nat → Nat) (ps : List User) :
    (ps.length < 2 →
      createAssignmentCycle rand ps
        = Except.error "At least 2 participants are required to create assignments") ∧
    (2 ≤ ps.length →
      ∃ out, createAssignmentCycle rand ps = Except.ok out ∧
        out.length = ps.length) ∧
    (∀ msg, createAssignmentCycle rand ps = Except.error msg →
      ps.length < 2 ∧
        msg = "At least 2 participants are required to create assignments") := by
  unfold createAssignmentCycle
  by_cases h : ps.length < 2
  · rw [if_pos h]
    refine ⟨fun _ => rfl, fun h2 => absurd h (by omega), fun msg hmsg => ⟨h, ?_⟩⟩
    injection hmsg with e
    exact e.symm
  · rw [if_neg h]
    refine ⟨fun hc => absurd hc h,
      fun _ => ⟨cyclePairs (shuffleArray rand ps), rfl, ?_⟩,
      fun msg hmsg => Except.noConfusion hmsg⟩
    rw [cyclePairs_length, shuffleArray_length]

/-- A permutation of a two-element list is one of its two arrangements. -/
theorem perm_pair_cases {x y : α} {l : List α} (h : l.Perm [x, y]) :
    l = [x, y] ∨ l = [y, x] := by
  have hlen := h.length_eq
  cases l with
  | nil => simp at hlen
  | cons a t =>
    cases t with
    | nil => simp at hlen
    | cons b t2 =>
      cases t2 with
      | cons c t3 => simp at hlen
      | nil =>
        have ha : a ∈ [x, y] := h.mem_iff.mp (List.mem_cons_self a [b])
        have ha2 : a = x ∨ a = y := by simpa using ha
        rcases ha2 with ha3 | ha3
        · left
          rw [ha3] at h ⊢
          have hb : b = y := by
            have h2 := h.cons_inv
            simpa [List.perm_singleton] using h2
          rw [hb]
        · right
          rw [ha3] at h ⊢
          have hb : b = x := by
            have h2 := (h.trans (List.Perm.swap y x [])).cons_inv
            simpa [List.perm_singleton] using h2
          rw [hb]

/-- C5: for an input of exactly two distinct participants and every choice of
randomness, the call succeeds and the output is exactly the two
mutually-reciprocal pairs A→B and B→A (in one of the two orders). -/
theorem createAssignmentCycle_two_participants (rand : Nat → Nat) (A B : User)
    (_hne : A.id ≠ B.id) :
    createAssignmentCycle rand [A, B]
        = Except.ok [⟨A.id, B.id⟩, ⟨B.id, A.id⟩] ∨
    createAssignmentCycle rand [A, B]
        = Except.ok [⟨B.id, A.id⟩, ⟨A.id, B.id⟩] := by
  have hcalc : createAssignmentCycle rand [A, B]
      = Except.ok (cyclePairs (shuffleArray rand [A, B])) := by
    unfold createAssignmentCycle
    rw [if_neg (by simp)]
  rcases perm_pair_cases (shuffleArray_perm rand [A, B]) with hc | hc
  · left
    rw [hcalc, hc]
    simp [cyclePairs, List.range_succ]
  · right
    rw [hcalc, hc]
    simp [cyclePairs, List.range_succ]

/-- The state-threaded loop never writes the first component, and its second
component is the plain Fisher-Yates loop. -/
theorem shuffleLoopSt_eq (rand : Nat → Nat) :
    ∀ (i : Nat) (a s : List User),
      shuffleLoopSt rand (a, s) i = (a, fisherYatesLoop rand s i) := by
  intro i
  induction i with
  | zero => intro a s; rfl
  | succ i ih =>
    intro a s
    rw [shuffleLoopSt, fisherYatesLoop]
    exact ih a _

/-- C8: `createAssignmentCycle` does not mutate its input: threading the caller's
array through every operation the source applies to it, the array is
element-for-element the same after the call, and the computed result is the same
as the pure function's. -/
theorem createAssignmentCycle_no_mutation (rand : Nat → Nat)
    (participants : List User) :
    (createAssignmentCycleSt rand participants).2 = participants ∧
    (createAssignmentCycleSt rand participants).1
      = createAssignmentCycle rand participants := by
  unfold createAssignmentCycleSt createAssignmentCycle shuffleArraySt shuffleArray
  rw [shuffleLoopSt_eq]
  by_cases h : participants.length < 2
  · rw [if_pos h, if_pos h]
    exact ⟨rfl, rfl⟩
  · rw [if_neg h, if_neg h]
    exact ⟨rfl, rfl⟩

/-- C9: `createAssignmentCycle` performs no deduplication or distinctness check:
on a length-2 input consisting of the same participant twice, and with the
all-zero randomness, the call returns normally and every returned pair assigns
the participant to itself. -/
theorem createAssignmentCycle_duplicate_ids :
    2 ≤ ([dupUser, dupUser] : List User).length ∧
    createAssignmentCycle (fun _ => 0) [dupUser, dupUser]
      = Except.ok [⟨"alice", "alice"⟩, ⟨"alice", "alice"⟩] ∧
    ∃ p ∈ [(⟨"alice", "alice"⟩ : AssignmentPair), ⟨"alice", "alice"⟩],
      p.giverId = p.receiverId := by
  refine ⟨by decide, rfl, ⟨⟨"alice", "alice"⟩, by simp, rfl⟩⟩

/-- C10: the output array is ordered along the cycle: the receiver of the pair at
index `i` is the giver of the pair at index `(i + 1) % N`. -/
theorem createAssignmentCycle_consecutive (rand : Nat → Nat)
    (participants : List User) (out : List AssignmentPair)
    (hout : createAssignmentCycle rand participants = Except.ok out) :
    ∀ i, i < out.length →
      (out.getD i dfltPair).receiverId
        = (out.getD ((i + 1) % out.length) dfltPair).giverId := by
  obtain ⟨hlen2, heq⟩ := createAssignmentCycle_ok rand participants out hout
  subst heq
  set l := shuffleArray rand participants with hl
  intro i hi
  have hlc : (cyclePairs l).length = l.length := cyclePairs_length l
  have hil : i < l.length := by omega
  have h0 : 0 < l.length := by omega
  have hmod : (i + 1) % l.length < l.length := Nat.mod_lt _ h0
  have hic : i < (cyclePairs l).length := hi
  have hmc : (i + 1) % (cyclePairs l).length < (cyclePairs l).length := by
    rw [hlc]
    exact hmod
  rw [List.getD_eq_getElem _ dfltPair hic, List.getD_eq_getElem _ dfltPair hmc,
    cyclePairs_getElem l i hic, cyclePairs_getElem l _ hmc]
  dsimp only
  rw [hlc]

/-- C6: when the exchange exists, the caller is its organizer and assignments
have not yet been generated, `generateAssignments` fails for fewer than 3
participants with the at-least-3 message and leaves the database untouched, even
though the generator itself would have succeeded on 2 participants (the
coordinator's floor of 3 is strictly above the generator's floor of 2). -/
theorem generateAssignments_participant_floor (rand : Nat → Nat) (db : DB)
    (exchangeId organizerId : String) (exchange : ExchangeRec)
    (hfind : findUniqueExchange db exchangeId = some exchange)
    (horg : exchange.organizer_id = organizerId)
    (hgen : exchange.assignments_generated = false)
    (hlt : (getParticipants db exchangeId).length < 3) :
    generateAssignments rand db exchangeId organizerId
      = (Except.error "At least 3 participants are required to generate assignments",
        db) ∧
    (2 ≤ (getParticipants db exchangeId).length →
      ∃ out, createAssignmentCycle rand (getParticipants db exchangeId)
        = Except.ok out) := by
  constructor
  · unfold generateAssignments
    rw [hfind]
    simp only [horg, hgen]
    rw [if_neg (by simp), if_neg (by simp), if_pos hlt]
  · intro h2
    unfold createAssignmentCycle
    rw [if_neg (by omega)]
    exact ⟨_, rfl⟩

/-- C7: once `assignments_generated` is true for the exchange, every further
`generateAssignments` call fails — with the already-been-generated message
whenever the caller is the organizer — and leaves the database (stored
assignments and exchange state) unchanged. -/
theorem generateAssignments_one_shot (rand : Nat → Nat) (db : DB)
    (exchangeId organizerId : String) (exchange : ExchangeRec)
    (hfind : findUniqueExchange db exchangeId = some exchange)
    (hgen : exchange.assignments_generated = true) :
    (generateAssignments rand db exchangeId organizerId).2 = db ∧
    (∃ msg, (generateAssignments rand db exchangeId organizerId).1
      = Except.error msg) ∧
    (exchange.organizer_id = organizerId →
      (generateAssignments rand db exchangeId organizerId).1
        = Except.error "Assignments have already been generated for this exchange") := by
  unfold generateAssignments
  rw [hfind]
  by_cases horg : exchange.organizer_id = organizerId
  · simp only [horg, hgen]
    rw [if_pos trivial,
      if_neg (show ¬organizerId ≠ organizerId from fun h => h rfl)]
    exact ⟨rfl, ⟨_, rfl⟩, fun _ => rfl⟩
  · simp only [hgen]
    rw [if_pos horg]
    exact ⟨rfl, ⟨_, rfl⟩, fun hcontra => absurd hcontra horg⟩

/-! ### Witnesses evaluating the theorems at concrete inputs -/

/-- Witness for C1 at the concrete three-participant input. -/
theorem createAssignmentCycle_single_cycle_witness :
    (2 ≤ wUsers.length) ∧ (wUsers.map User.id).Nodup ∧
    (createAssignmentCycle wRand wUsers = Except.ok wOut) ∧
    (∀ g ∈ wUsers.map User.id,
      (receiverOf wOut)^[wUsers.length] g = g ∧
      ((List.range wUsers.length).map
          fun k => (receiverOf wOut)^[k] g).Perm (wUsers.map User.id) ∧
      ∀ k, 0 < k → k < wUsers.length → (receiverOf wOut)^[k] g ≠ g) :=
  ⟨by decide, by decide, rfl,
    createAssignmentCycle_single_cycle wRand wUsers wOut (by decide) (by decide)
      rfl⟩

/-- Witness for C2 at the concrete three-participant input. -/
theorem createAssignmentCycle_coverage_witness :
    (2 ≤ wUsers.length) ∧ (wUsers.map User.id).Nodup ∧
    (createAssignmentCycle wRand wUsers = Except.ok wOut) ∧
    wOut.length = wUsers.length ∧
    (wOut.map (fun p => p.giverId)).Perm (wUsers.map User.id) ∧
    (wOut.map (fun p => p.receiverId)).Perm (wUsers.map User.id) :=
  ⟨by decide, by decide, rfl,
    createAssignmentCycle_coverage wRand wUsers wOut (by decide) (by decide)
      rfl⟩

/-- Witness for C3 at the concrete three-participant input. -/
theorem createAssignmentCycle_no_self_witness :
    (2 ≤ wUsers.length) ∧ (wUsers.map User.id).Nodup ∧
    (createAssignmentCycle wRand wUsers = Except.ok wOut) ∧
    ∀ p ∈ wOut, p.giverId ≠ p.receiverId :=
  ⟨by decide, by decide, rfl,
    createAssignmentCycle_no_self wRand wUsers wOut (by decide) (by decide)
      rfl⟩

/-- Witness for C4: the floor theorem evaluated at the concrete input (and, for
the error half, at its singleton truncation). -/
theorem createAssignmentCycle_insufficient_witness :
    (wUsers.take 1).length < 2 ∧
    (createAssignmentCycle wRand (wUsers.take 1)
      = Except.error "At least 2 participants are required to create assignments") ∧
    2 ≤ wUsers.length ∧
    (∃ out, createAssignmentCycle wRand wUsers = Except.ok out ∧
      out.length = wUsers.length) :=
  ⟨by decide,
    (createAssignmentCycle_insufficient wRand (wUsers.take 1)).1 (by decide),
    by decide,
    (createAssignmentCycle_insufficient wRand wUsers).2.1 (by decide)⟩

/-- Witness for C5 at two concrete distinct participants. -/
theorem createAssignmentCycle_two_participants_witness :
    (wUserOne.id ≠ wUserTwo.id) ∧
    (createAssignmentCycle wRand [wUserOne, wUserTwo]
        = Except.ok [⟨wUserOne.id, wUserTwo.id⟩, ⟨wUserTwo.id, wUserOne.id⟩] ∨
      createAssignmentCycle wRand [wUserOne, wUserTwo]
        = Except.ok [⟨wUserTwo.id, wUserOne.id⟩, ⟨wUserOne.id, wUserTwo.id⟩]) :=
  ⟨by decide,
    createAssignmentCycle_two_participants wRand wUserOne wUserTwo (by decide)⟩

/-- Witness for C6 at a concrete database with two participants. -/
theorem generateAssignments_participant_floor_witness :
    (findUniqueExchange twoUserDB "e1" = some ⟨"e1", "org", false⟩) ∧
    ((⟨"e1", "org", false⟩ : ExchangeRec).organizer_id = "org") ∧
    ((⟨"e1", "org", false⟩ : ExchangeRec).assignments_generated = false) ∧
    ((getParticipants twoUserDB "e1").length < 3) ∧
    (generateAssignments wRand twoUserDB "e1" "org"
      = (Except.error "At least 3 participants are required to generate assignments",
        twoUserDB) ∧
      (2 ≤ (getParticipants twoUserDB "e1").length →
        ∃ out, createAssignmentCycle wRand (getParticipants twoUserDB "e1")
          = Except.ok out)) :=
  ⟨by decide, by decide, by decide, by decide,
    generateAssignments_participant_floor wRand twoUserDB "e1" "org"
      ⟨"e1", "org", false⟩ (by decide) (by decide) (by decide) (by decide)⟩

/-- Witness for C7 at a concrete database whose exchange is already generated. -/
theorem generateAssignments_one_shot_witness :
    (findUniqueExchange generatedDB "e1" = some ⟨"e1", "org", true⟩) ∧
    ((⟨"e1", "org", true⟩ : ExchangeRec).assignments_generated = true) ∧
    ((generateAssignments wRand generatedDB "e1" "org").2 = generatedDB ∧
      (∃ msg, (generateAssignments wRand generatedDB "e1" "org").1
        = Except.error msg) ∧
      ((⟨"e1", "org", true⟩ : ExchangeRec).organizer_id = "org" →
        (generateAssignments wRand generatedDB "e1" "org").1
          = Except.error "Assignments have already been generated for this exchange")) :=
  ⟨by decide, by decide,
    generateAssignments_one_shot wRand generatedDB "e1" "org"
      ⟨"e1", "org", true⟩ (by decide) (by decide)⟩

/-- Witness for C10 at the concrete three-participant input. -/
theorem createAssignmentCycle_consecutive_witness :
    (createAssignmentCycle wRand wUsers = Except.ok wOut) ∧
    ∀ i, i < wOut.length →
      (wOut.getD i dfltPair).receiverId
        = (wOut.getD ((i + 1) % wOut.length) dfltPair).giverId :=
  ⟨rfl, createAssignmentCycle_consecutive wRand wUsers wOut rfl⟩
